import Mathlib

/-!
# xihe-server: training command validation, project service and project repository

A shallow embedding of

* `app/training_dto.go`  (`TrainingCreateCmd.Validate`, `toTrainingSummaryDTO`, `toTrainingDTO`),
* `app/project.go`       (`projectService.Create`, `projectService.List`, `toProjectDTO`),
* `infrastructure/repositories/project.go` (`project.Save`, `project.List`, `toProjectDO`,
  `ProjectDO.toProject`).

Conventions of the embedding.

* A Go `error` is its message; a nil `error` is `none`.
* A value of one of the `domain` interface types (`Account`, `ProjName`, ...) is either
  nil (`none`) or a value on which the accessor method returns a string (`some v`).
* Calling a method on a nil interface value aborts the Go program; functions that do so
  return `Outcome.nilDeref`.
* The collaborators behind interfaces (ports) are state transformers over a world state `σ`.
-/

set_option linter.dupNamespace false

namespace domain

/-- Go `error`, identified with its message. -/
abbrev Error := String

/-- Result of running Go code that may dereference a nil interface value. -/
inductive Outcome (α : Type) where
  | nilDeref : Outcome α
  | ret : α → Outcome α
  deriving DecidableEq, Repr

/-- Sequencing of computations that may abort. -/
def Outcome.bind {α β : Type} (x : Outcome α) (f : α → Outcome β) : Outcome β :=
  match x with
  | .nilDeref => .nilDeref
  | .ret a => f a

/-- Method call on an interface value: aborts on nil. -/
def call {V : Type} (recv : Option V) (method : V → String) : Outcome String :=
  match recv with
  | none => .nilDeref
  | some v => .ret (method v)

/-- Value behind `domain.Account`; the field is the accessor `Account()`. -/
structure Account where
  Account : String
  deriving DecidableEq, Repr

/-- Value behind `domain.ProjName`; the field is the accessor `ProjName()`. -/
structure ProjName where
  ProjName : String
  deriving DecidableEq, Repr

/-- Value behind `domain.ResourceDesc`; the field is the accessor `ResourceDesc()`. -/
structure ResourceDesc where
  ResourceDesc : String
  deriving DecidableEq, Repr

/-- Value behind `domain.ProjType`; the field is the accessor `ProjType()`. -/
structure ProjType where
  ProjType : String
  deriving DecidableEq, Repr

/-- Value behind `domain.CoverId`; the field is the accessor `CoverId()`. -/
structure CoverId where
  CoverId : String
  deriving DecidableEq, Repr

/-- Value behind `domain.RepoType`; the field is the accessor `RepoType()`. -/
structure RepoType where
  RepoType : String
  deriving DecidableEq, Repr

/-- Value behind `domain.ProtocolName`; the field is the accessor `ProtocolName()`. -/
structure ProtocolName where
  ProtocolName : String
  deriving DecidableEq, Repr

/-- Value behind `domain.TrainingPlatform`; the field is the accessor `TrainingPlatform()`. -/
structure TrainingPlatform where
  TrainingPlatform : String
  deriving DecidableEq, Repr

/-- Value behind `domain.TrainingName`; the field is the accessor `TrainingName()`. -/
structure TrainingName where
  TrainingName : String
  deriving DecidableEq, Repr

/-- Value behind `domain.TrainingDesc`; the field is the accessor `TrainingDesc()`. -/
structure TrainingDesc where
  TrainingDesc : String
  deriving DecidableEq, Repr

/-- Value behind the interface type of `TrainingConfig.CodeDir`. -/
structure Directory where
  Directory : String
  deriving DecidableEq, Repr

/-- Value behind the interface type of `TrainingConfig.BootFile`. -/
structure FilePath where
  FilePath : String
  deriving DecidableEq, Repr

/-- Value behind `domain.ComputeType`; the field is the accessor `ComputeType()`. -/
structure ComputeType where
  ComputeType : String
  deriving DecidableEq, Repr

/-- Value behind `domain.ComputeFlavor`; the field is the accessor `ComputeFlavor()`. -/
structure ComputeFlavor where
  ComputeFlavor : String
  deriving DecidableEq, Repr

/-- Value behind `domain.ComputeVersion`; the field is the accessor `ComputeVersion()`. -/
structure ComputeVersion where
  ComputeVersion : String
  deriving DecidableEq, Repr

/-- Value behind the interface type of the `Key` of a key-value pair or of an input. -/
structure CustomizedKey where
  CustomizedKey : String
  deriving DecidableEq, Repr

/-- Value behind the interface type of the `Value` of a key-value pair. -/
structure CustomizedValue where
  CustomizedValue : String
  deriving DecidableEq, Repr

/-- Value behind the interface type of `Input.Type`. -/
structure ResourceType where
  ResourceType : String
  deriving DecidableEq, Repr

/-- The struct `domain.Compute`: three interface-typed fields. -/
structure Compute where
  Type_ : Option ComputeType
  Version : Option ComputeVersion
  Flavor : Option ComputeFlavor
  deriving DecidableEq, Repr

/-- The struct `domain.KeyValue`. -/
structure KeyValue where
  Key : Option CustomizedKey
  Value : Option CustomizedValue
  deriving DecidableEq, Repr

/-- The struct `domain.Input`: a binding to a resource of some user. -/
structure Input where
  Key : Option CustomizedKey
  User : Option Account
  Type_ : Option ResourceType
  RepoId : String
  deriving DecidableEq, Repr

/-- The struct `domain.TrainingConfig`. -/
structure TrainingConfig where
  ProjectName : Option ProjName
  ProjectRepoId : String
  Name : Option TrainingName
  Desc : Option TrainingDesc
  CodeDir : Option Directory
  BootFile : Option FilePath
  Compute : Compute
  Hyperparameters : List KeyValue
  Env : List KeyValue
  Inputs : List Input
  EnableAim : Bool
  deriving DecidableEq, Repr

/-- The struct `domain.JobDetail`, written by the training platform. -/
structure JobDetail where
  Status : String
  Error : String
  Duration : Int
  AimPath : String
  deriving DecidableEq, Repr

/-- The struct `domain.TrainingSummary`, with the fields that `toTrainingSummaryDTO` reads. -/
structure TrainingSummary where
  Id : String
  Name : Option TrainingName
  Desc : Option TrainingDesc
  Error : String
  Status : String
  Duration : Int
  CreatedAt : Int
  deriving DecidableEq, Repr

/-- The struct `domain.UserTraining`, with the fields that `toTrainingDTO` reads. -/
structure UserTraining where
  Id : String
  ProjectId : String
  TrainingConfig : TrainingConfig
  JobDetail : JobDetail
  CreatedAt : Int
  deriving DecidableEq, Repr

/-- The struct `domain.ResourceIndex`: a reference to a resource of some owner. -/
structure ResourceIndex where
  Owner : Option Account
  Id : String
  deriving DecidableEq, Repr

/-- The struct `domain.ProjectModifiableProperty`, embedded in `domain.Project`. -/
structure ProjectModifiableProperty where
  Name : Option ProjName
  Desc : Option ResourceDesc
  CoverId : Option CoverId
  RepoType : Option RepoType
  deriving DecidableEq, Repr

/-- The struct `domain.Project`; the embedded struct is the parent. -/
structure Project extends ProjectModifiableProperty where
  Id : String
  Owner : Option Account
  Type_ : Option ProjType
  Protocol : Option ProtocolName
  Training : Option TrainingPlatform
  RepoId : String
  Tags : List String
  RelatedModels : List ResourceIndex
  RelatedDatasets : List ResourceIndex
  Version : Int
  LikeCount : Int
  ForkCount : Int
  CreatedAt : Int
  UpdatedAt : Int
  deriving DecidableEq, Repr

/-- The Go zero value of `domain.Project`. -/
def Project.zero : Project :=
  { Name := none, Desc := none, CoverId := none, RepoType := none
    Id := "", Owner := none, Type_ := none, Protocol := none, Training := none
    RepoId := "", Tags := [], RelatedModels := [], RelatedDatasets := []
    Version := 0, LikeCount := 0, ForkCount := 0, CreatedAt := 0, UpdatedAt := 0 }

/-- Every interface-typed field that the accessors of the mapping and DTO layers read is set. -/
def Project.populated (p : Project) : Prop :=
  p.Owner.isSome ∧ p.Name.isSome ∧ p.Desc.isSome ∧ p.Type_.isSome ∧ p.CoverId.isSome ∧
    p.RepoType.isSome ∧ p.Protocol.isSome ∧ p.Training.isSome

instance (p : Project) : Decidable p.populated := by
  unfold Project.populated; infer_instance

end domain

namespace platform

open domain

/-- The struct `platform.RepoOption`. -/
structure RepoOption where
  Name : Option ProjName
  RepoType : Option RepoType
  deriving DecidableEq, Repr

/-- The interface `platform.Repository` (the Repo Provider): `New` returns the id of the
created repository and an error. -/
structure Repository (σ : Type) where
  New : RepoOption → σ → Outcome ((String × Option Error) × σ)

end platform

namespace repository

open domain

/-- The struct `repository.ResourceListOption`. -/
structure ResourceListOption where
  Name : String
  RepoType : Option RepoType
  deriving DecidableEq, Repr

/-- The interface `repository.Project` (the Repository port), with the methods used by
`projectService.Create` and `projectService.List`. -/
structure Project (σ : Type) where
  Save : domain.Project → σ → Outcome ((domain.Project × Option Error) × σ)
  List : Option Account → ResourceListOption → σ →
    Outcome ((List domain.Project × Option Error) × σ)

/-- The interface `repository.Activity` (the activity log port) over activity records `A`. -/
structure Activity (σ A : Type) where
  Save : A → σ → Outcome (Option Error × σ)

end repository

namespace app

open domain

/-- The struct `TrainingCreateCmd`; the embedded `domain.TrainingConfig` is the parent. -/
structure TrainingCreateCmd extends TrainingConfig where
  User : Option Account
  ProjectId : String
  deriving DecidableEq, Repr

/-- The error created on the first line of `Validate`. -/
def invalidCmdErr : Error := "invalid cmd of creating training"

/-- The error created inside the loop over `Inputs`. -/
def invalidInputErr : Error := "invalide input"

/-- The closure `f` of `Validate`: the error `err` at the first entry with a nil `Key`. -/
def Validate.f (err : Error) : List KeyValue → Option Error
  | [] => none
  | kv :: rest => if kv.Key.isNone then some err else Validate.f err rest

/-- The final loop of `Validate` over `cmd.Inputs`. -/
def Validate.inputs : List Input → Option Error
  | [] => none
  | v :: rest =>
    if v.Key.isNone || v.User.isNone || v.Type_.isNone || v.RepoId == "" then
      some invalidInputErr
    else Validate.inputs rest

/-- The method `(*TrainingCreateCmd).Validate`. -/
def TrainingCreateCmd.Validate (cmd : TrainingCreateCmd) : Option Error :=
  let err := invalidCmdErr
  let b := cmd.User.isSome &&
    cmd.ProjectId != "" &&
    cmd.ProjectName.isSome &&
    cmd.ProjectRepoId != "" &&
    cmd.Name.isSome &&
    cmd.CodeDir.isSome &&
    cmd.BootFile.isSome
  if !b then some err
  else
    let c := cmd.Compute
    if c.Flavor.isNone || c.Type_.isNone || c.Version.isNone then some err
    else if (Validate.f err cmd.Hyperparameters).isSome then some err
    else if (Validate.f err cmd.Env).isSome then some err
    else Validate.inputs cmd.Inputs

/-- The required scalar fields of a command are present: the seven fields of the first
check and the three fields of `Compute`. -/
def TrainingCreateCmd.requiredPresent (cmd : TrainingCreateCmd) : Prop :=
  cmd.User ≠ none ∧ cmd.ProjectId ≠ "" ∧ cmd.ProjectName ≠ none ∧ cmd.ProjectRepoId ≠ "" ∧
    cmd.Name ≠ none ∧ cmd.CodeDir ≠ none ∧ cmd.BootFile ≠ none ∧
    cmd.Compute.Flavor ≠ none ∧ cmd.Compute.Type_ ≠ none ∧ cmd.Compute.Version ≠ none

/-- Every entry of a list of key-value pairs has a non-nil `Key`. -/
def keysPresent (kvs : List KeyValue) : Prop :=
  ∀ kv ∈ kvs, kv.Key ≠ none

/-- An input misses one of `Key`, `User`, `Type` (nil) or `RepoId` (empty string). -/
def malformed (v : Input) : Prop :=
  v.Key = none ∨ v.User = none ∨ v.Type_ = none ∨ v.RepoId = ""

instance (cmd : TrainingCreateCmd) : Decidable cmd.requiredPresent := by
  unfold TrainingCreateCmd.requiredPresent; infer_instance

instance (kvs : List KeyValue) : Decidable (keysPresent kvs) := by
  unfold keysPresent; infer_instance

instance (v : Input) : Decidable (malformed v) := by
  unfold malformed; infer_instance

/-- The example command of the specification, with the three lists as arguments. -/
def exampleCmd (hp env : List KeyValue) (inputs : List Input) : TrainingCreateCmd :=
  { User := some ⟨"alice"⟩
    ProjectId := "p1"
    ProjectName := some ⟨"proj"⟩
    ProjectRepoId := "r1"
    Name := some ⟨"train1"⟩
    Desc := none
    CodeDir := some ⟨"/code"⟩
    BootFile := some ⟨"main.py"⟩
    Compute := { Type_ := some ⟨"npu"⟩, Flavor := some ⟨"f1"⟩, Version := some ⟨"v1"⟩ }
    Hyperparameters := hp
    Env := env
    Inputs := inputs
    EnableAim := false }

/-- An input without a key, for a project of `bob`. -/
def inputNoKey : Input :=
  { Key := none, User := some ⟨"bob"⟩, Type_ := some ⟨"dataset"⟩, RepoId := "r2" }

/-- A well-formed input. -/
def inputOk : Input :=
  { Key := some ⟨"data"⟩, User := some ⟨"bob"⟩, Type_ := some ⟨"dataset"⟩, RepoId := "r2" }

/-- The example command without its `BootFile`. -/
def exampleCmdNoBootFile (hp env : List KeyValue) (inputs : List Input) : TrainingCreateCmd :=
  { exampleCmd hp env inputs with BootFile := none }

/-- The struct `TrainingSummaryDTO`. -/
structure TrainingSummaryDTO where
  Id : String
  Name : String
  Desc : String
  Error : String
  Status : String
  CreatedAt : String
  IsDone : Bool
  Duration : Int
  deriving DecidableEq, Repr

/-- The struct `ComputeDTO`. -/
structure ComputeDTO where
  Type_ : String
  Version : String
  Flavor : String
  deriving DecidableEq, Repr

/-- The struct `TrainingDTO`. -/
structure TrainingDTO where
  Id : String
  ProjectId : String
  Name : String
  Desc : String
  IsDone : Bool
  Error : String
  Status : String
  Duration : Int
  CreatedAt : String
  Compute : ComputeDTO
  AimPath : String
  EnableAim : Bool
  LogPreviewURL : String
  deriving DecidableEq, Repr

/-- Modelled from the spec: the constant `trainingStatusScheduling` is declared outside
src; sections 4.4 and 8 of the specification give its value, the display status
`scheduling`. -/
def trainingStatusScheduling : String := "scheduling"

/-- The struct `trainingService`, reduced to what `isJobDone` consults: the verdict of the
training platform on a reported status. -/
structure trainingService where
  jobDone : String → Bool

/-- Modelled from the spec: the method `trainingService.isJobDone` is not under src.
Section 4.4 gives its signature `isJobDone(status string) -> bool` and section 8 its value
on the unset status (`IsDone == false`); on every other status the verdict is the one of
the training platform. -/
def trainingService.isJobDone (s : trainingService) (status : String) : Bool :=
  status != "" && s.jobDone status

/-- The method `trainingService.toTrainingSummaryDTO`; `ToDate` stands for `utils.ToDate`.
The written `dto` is returned; `t.Name.TrainingName()` aborts when `t.Name` is nil. -/
def trainingService.toTrainingSummaryDTO (s : trainingService) (ToDate : Int → String)
    (t : TrainingSummary) : Outcome TrainingSummaryDTO :=
  let status := if t.Status == "" then trainingStatusScheduling else t.Status
  (call t.Name TrainingName.TrainingName).bind fun name =>
  let dto : TrainingSummaryDTO :=
    { Id := t.Id
      Name := name
      Desc := ""
      Error := t.Error
      Status := status
      IsDone := s.isJobDone t.Status
      Duration := t.Duration
      CreatedAt := ToDate t.CreatedAt }
  match t.Desc with
  | some d => .ret { dto with Desc := d.TrainingDesc }
  | none => .ret dto

/-- The method `trainingService.toTrainingDTO`; `ToDate` stands for `utils.ToDate`.
The accessors are called in the order of the composite literal. -/
def trainingService.toTrainingDTO (s : trainingService) (ToDate : Int → String)
    (ut : UserTraining) (link : String) : Outcome TrainingDTO :=
  let t := ut.TrainingConfig
  let detail := ut.JobDetail
  let c := t.Compute
  let status := if detail.Status == "" then trainingStatusScheduling else detail.Status
  (call t.Name TrainingName.TrainingName).bind fun name =>
  (call c.Type_ ComputeType.ComputeType).bind fun ctype =>
  (call c.Flavor ComputeFlavor.ComputeFlavor).bind fun flavor =>
  (call c.Version ComputeVersion.ComputeVersion).bind fun version =>
  let dto : TrainingDTO :=
    { Id := ut.Id
      ProjectId := ut.ProjectId
      Name := name
      Desc := ""
      IsDone := s.isJobDone detail.Status
      Error := detail.Error
      Status := status
      Duration := detail.Duration
      CreatedAt := ToDate ut.CreatedAt
      Compute := { Type_ := ctype, Flavor := flavor, Version := version }
      EnableAim := t.EnableAim
      AimPath := ut.JobDetail.AimPath
      LogPreviewURL := link }
  match t.Desc with
  | some d => .ret { dto with Desc := d.TrainingDesc }
  | none => .ret dto

/-- The struct `ProjectCreateCmd`. -/
structure ProjectCreateCmd where
  Owner : Option Account
  Name : Option ProjName
  Desc : Option ResourceDesc
  Type_ : Option ProjType
  CoverId : Option CoverId
  RepoType : Option RepoType
  Protocol : Option ProtocolName
  Training : Option TrainingPlatform
  deriving DecidableEq, Repr

/-- The method `(*ProjectCreateCmd).Validate`. -/
def ProjectCreateCmd.Validate (cmd : ProjectCreateCmd) : Option Error :=
  let b := cmd.Owner.isSome &&
    cmd.Name.isSome &&
    cmd.Desc.isSome &&
    cmd.Type_.isSome &&
    cmd.CoverId.isSome &&
    cmd.RepoType.isSome &&
    cmd.Protocol.isSome &&
    cmd.Training.isSome
  if !b then some "invalid cmd of creating project" else none

/-- The method `(*ProjectCreateCmd).toProject`: the fields not listed are zero. -/
def ProjectCreateCmd.toProject (cmd : ProjectCreateCmd) : Project :=
  { Project.zero with
    Owner := cmd.Owner
    Type_ := cmd.Type_
    Protocol := cmd.Protocol
    Training := cmd.Training
    Name := cmd.Name
    Desc := cmd.Desc
    CoverId := cmd.CoverId
    RepoType := cmd.RepoType }

/-- The struct `ProjectDTO`. -/
structure ProjectDTO where
  Id : String
  Owner : String
  Name : String
  Desc : String
  Type_ : String
  CoverId : String
  Protocol : String
  Training : String
  RepoType : String
  RepoId : String
  Tags : List String
  deriving DecidableEq, Repr

/-- The Go zero value of `ProjectDTO`, the value of the named result `dto` until it is
written. -/
def ProjectDTO.zero : ProjectDTO :=
  { Id := "", Owner := "", Name := "", Desc := "", Type_ := "", CoverId := "", Protocol := ""
    Training := "", RepoType := "", RepoId := "", Tags := [] }

/-- The struct `ResourceListCmd`. -/
structure ResourceListCmd where
  Name : String
  RepoType : Option RepoType
  deriving DecidableEq, Repr

/-- The method `(*ResourceListCmd).toResourceListOption`. -/
def ResourceListCmd.toResourceListOption (cmd : ResourceListCmd) :
    repository.ResourceListOption :=
  { Name := cmd.Name, RepoType := cmd.RepoType }

/-- The struct `projectService` over a world state `σ` and activity records `A`. -/
structure projectService (σ A : Type) where
  repo : repository.Project σ
  activity : repository.Activity σ A

/-- The method `projectService.toProjectDTO`; the written `dto` is returned. The accessors
are called in the order of the composite literal; each aborts on a nil receiver. -/
def toProjectDTO (p : Project) : Outcome ProjectDTO :=
  (call p.Owner Account.Account).bind fun owner =>
  (call p.Name ProjName.ProjName).bind fun name =>
  (call p.Desc ResourceDesc.ResourceDesc).bind fun desc =>
  (call p.Type_ ProjType.ProjType).bind fun type =>
  (call p.CoverId CoverId.CoverId).bind fun coverId =>
  (call p.Protocol ProtocolName.ProtocolName).bind fun protocol =>
  (call p.Training TrainingPlatform.TrainingPlatform).bind fun training =>
  (call p.RepoType RepoType.RepoType).bind fun repoType =>
  .ret
    { Id := p.Id
      Owner := owner
      Name := name
      Desc := desc
      Type_ := type
      CoverId := coverId
      Protocol := protocol
      Training := training
      RepoType := repoType
      RepoId := p.RepoId
      Tags := p.Tags }

/-- The method `projectService.Create`. `gen` stands for `genActivityForCreatingResource`
and `rtProject` for the constant `domain.ResourceTypeProject`, both declared outside src.
The result is the pair of the named results `(dto, err)` and the world after the call. -/
def projectService.Create {σ A : Type} (s : projectService σ A)
    (gen : Option Account → ResourceType → String → A) (rtProject : ResourceType)
    (cmd : ProjectCreateCmd) (pr : platform.Repository σ) (w : σ) :
    Outcome ((ProjectDTO × Option Error) × σ) :=
  -- step1: create repo on gitlab
  match pr.New { Name := cmd.Name, RepoType := cmd.RepoType } w with
  | .nilDeref => .nilDeref
  | .ret ((_, some err), w1) => .ret ((ProjectDTO.zero, some err), w1)
  | .ret ((pid, none), w1) =>
    -- step2: save
    let v := { cmd.toProject with RepoId := pid }
    match s.repo.Save v w1 with
    | .nilDeref => .nilDeref
    | .ret ((_, some err), w2) => .ret ((ProjectDTO.zero, some err), w2)
    | .ret ((p, none), w2) =>
      match toProjectDTO p with
      | .nilDeref => .nilDeref
      | .ret dto =>
        -- add activity
        let ua := gen p.Owner rtProject p.Id
        -- ignore the error
        match s.activity.Save ua w2 with
        | .nilDeref => .nilDeref
        | .ret (_, w3) => .ret ((dto, none), w3)

/-- The loop of `projectService.List`: the DTOs of the projects, in order. -/
def listLoop : List Project → Outcome (List ProjectDTO)
  | [] => .ret []
  | p :: rest =>
    (toProjectDTO p).bind fun dto => (listLoop rest).bind fun dtos => .ret (dto :: dtos)

/-- The method `projectService.List`; a nil slice and an empty slice are both `[]`. -/
def projectService.List {σ A : Type} (s : projectService σ A) (owner : Option Account)
    (cmd : ResourceListCmd) (w : σ) : Outcome ((List ProjectDTO × Option Error) × σ) :=
  match s.repo.List owner cmd.toResourceListOption w with
  | .nilDeref => .nilDeref
  | .ret ((v, err), w1) =>
    if err.isSome || v.length == 0 then .ret (([], err), w1)
    else
      match listLoop v with
      | .nilDeref => .nilDeref
      | .ret dtos => .ret ((dtos, none), w1)

end app

namespace repositories

open domain

/-- The struct `ResourceIndexDO`: the stored form of a resource reference. -/
structure ResourceIndexDO where
  Owner : String
  Id : String
  deriving DecidableEq, Repr

/-- The struct `ResourceListDO`. -/
structure ResourceListDO where
  Name : String
  RepoType : String
  deriving DecidableEq, Repr

/-- The struct `ProjectDO`: the stored form of a project. -/
structure ProjectDO where
  Id : String
  Owner : String
  Name : String
  Desc : String
  Type_ : String
  CoverId : String
  Protocol : String
  Training : String
  RepoType : String
  RepoId : String
  Tags : List String
  CreatedAt : Int
  UpdatedAt : Int
  Version : Int
  LikeCount : Int
  ForkCount : Int
  RelatedModels : List ResourceIndexDO
  RelatedDatasets : List ResourceIndexDO
  deriving DecidableEq, Repr

/-- The interface `ProjectMapper`, with the methods used by `Save` and `List`. -/
structure ProjectMapper (σ : Type) where
  Insert : ProjectDO → σ → Outcome ((String × Option Error) × σ)
  List : String → ResourceListDO → σ → Outcome ((List ProjectDO × Option Error) × σ)

/-- Modelled from the spec: the factories of the `domain` value types, `convertError` and
the conversion of a stored resource reference are declared outside src. By section 4.1 a
factory validates a raw string and either constructs the value or fails with an error; a
failing factory returns a nil value beside its error. -/
structure Deps where
  NewAccount : String → Except Error Account
  NewProjName : String → Except Error ProjName
  NewResourceDesc : String → Except Error ResourceDesc
  NewProjType : String → Except Error ProjType
  NewConverId : String → Except Error CoverId
  NewRepoType : String → Except Error RepoType
  NewProtocolName : String → Except Error ProtocolName
  NewTrainingPlatform : String → Except Error TrainingPlatform
  toResourceIndex : ResourceIndexDO → Except Error ResourceIndex
  convertError : Error → Error

/-- Modelled from the spec: the function `convertToResourceIndex` is declared outside src.
By sections 3 and 6 the related models and datasets are lists of resource references that
the mapping layer reconstructs one by one, a reconstruction failure being returned as the
error; the references converted before the failure are returned with it. -/
def convertToResourceIndex (D : Deps) : List ResourceIndexDO → List ResourceIndex × Option Error
  | [] => ([], none)
  | d :: rest =>
    match D.toResourceIndex d with
    | .error e => ([], some e)
    | .ok r =>
      let (rs, e) := convertToResourceIndex D rest
      (r :: rs, e)

/-- The struct `project`: the repository over a mapper. -/
structure project (σ : Type) where
  mapper : ProjectMapper σ

/-- The method `project.toProjectDO`; every accessor aborts on a nil receiver. The fields
not listed in the composite literal are zero. -/
def project.toProjectDO (p : Project) : Outcome ProjectDO :=
  (call p.Owner Account.Account).bind fun owner =>
  (call p.Name ProjName.ProjName).bind fun name =>
  (call p.Desc ResourceDesc.ResourceDesc).bind fun desc =>
  (call p.Type_ ProjType.ProjType).bind fun type =>
  (call p.CoverId CoverId.CoverId).bind fun coverId =>
  (call p.RepoType RepoType.RepoType).bind fun repoType =>
  (call p.Protocol ProtocolName.ProtocolName).bind fun protocol =>
  (call p.Training TrainingPlatform.TrainingPlatform).bind fun training =>
  .ret
    { Id := p.Id
      Owner := owner
      Name := name
      Desc := desc
      Type_ := type
      CoverId := coverId
      RepoType := repoType
      Protocol := protocol
      Training := training
      Tags := p.Tags
      RepoId := p.RepoId
      CreatedAt := p.CreatedAt
      UpdatedAt := p.UpdatedAt
      Version := p.Version
      LikeCount := 0
      ForkCount := 0
      RelatedModels := []
      RelatedDatasets := [] }

/-- The method `(*ProjectDO).toProject`: the destination `r` after the call and the
returned error. Each `if r.X, err = NewX(do.X); err != nil` writes the field and returns
at the first error. -/
def ProjectDO.toProject (D : Deps) (d : ProjectDO) (r : Project) : Project × Option Error :=
  let r := { r with Id := d.Id }
  match D.NewAccount d.Owner with
  | .error e => ({ r with Owner := none }, some e)
  | .ok owner =>
  let r := { r with Owner := some owner }
  match D.NewProjName d.Name with
  | .error e => ({ r with Name := none }, some e)
  | .ok name =>
  let r := { r with Name := some name }
  match D.NewResourceDesc d.Desc with
  | .error e => ({ r with Desc := none }, some e)
  | .ok desc =>
  let r := { r with Desc := some desc }
  match D.NewProjType d.Type_ with
  | .error e => ({ r with Type_ := none }, some e)
  | .ok type =>
  let r := { r with Type_ := some type }
  match D.NewConverId d.CoverId with
  | .error e => ({ r with CoverId := none }, some e)
  | .ok coverId =>
  let r := { r with CoverId := some coverId }
  match D.NewRepoType d.RepoType with
  | .error e => ({ r with RepoType := none }, some e)
  | .ok repoType =>
  let r := { r with RepoType := some repoType }
  match D.NewProtocolName d.Protocol with
  | .error e => ({ r with Protocol := none }, some e)
  | .ok protocol =>
  let r := { r with Protocol := some protocol }
  match D.NewTrainingPlatform d.Training with
  | .error e => ({ r with Training := none }, some e)
  | .ok training =>
  let r := { r with Training := some training }
  match convertToResourceIndex D d.RelatedModels with
  | (models, some e) => ({ r with RelatedModels := models }, some e)
  | (models, none) =>
  let r := { r with RelatedModels := models }
  match convertToResourceIndex D d.RelatedDatasets with
  | (datasets, some e) => ({ r with RelatedDatasets := datasets }, some e)
  | (datasets, none) =>
  let r := { r with RelatedDatasets := datasets }
  ({ r with
      RepoId := d.RepoId
      Tags := d.Tags
      Version := d.Version
      LikeCount := d.LikeCount
      ForkCount := d.ForkCount }, none)

/-- The error created by `Save` for a project that already has an id. -/
def mustBeNewErr : Error := "must be a new project"

/-- The method `project.Save`: the named results `(r, err)` and the world after the call. -/
def project.Save {σ : Type} (impl : project σ) (D : Deps) (p : Project) (w : σ) :
    Outcome ((Project × Option Error) × σ) :=
  if p.Id != "" then .ret ((Project.zero, some mustBeNewErr), w)
  else
    match project.toProjectDO p with
    | .nilDeref => .nilDeref
    | .ret d =>
      match impl.mapper.Insert d w with
      | .nilDeref => .nilDeref
      | .ret ((_, some err), w1) => .ret ((Project.zero, some (D.convertError err)), w1)
      | .ret ((v, none), w1) => .ret (({ p with Id := v }, none), w1)

/-- The loop of `project.List` over the slice `r` made of zero projects: the slice after
the loop and the error that stopped it. -/
def listLoop (D : Deps) : List ProjectDO → List Project × Option Error
  | [] => ([], none)
  | d :: rest =>
    match ProjectDO.toProject D d Project.zero with
    | (r, some e) => (r :: rest.map (fun _ => Project.zero), some e)
    | (r, none) =>
      let (rs, e) := listLoop D rest
      (r :: rs, e)

/-- The method `project.List`. -/
def project.List {σ : Type} (impl : project σ) (D : Deps) (owner : Option Account)
    (option : repository.ResourceListOption) (w : σ) :
    Outcome ((List Project × Option Error) × σ) :=
  let d : ResourceListDO :=
    { Name := option.Name
      RepoType := match option.RepoType with
        | some t => t.RepoType
        | none => "" }
  match call owner Account.Account with
  | .nilDeref => .nilDeref
  | .ret account =>
    match impl.mapper.List account d w with
    | .nilDeref => .nilDeref
    | .ret ((_, some err), w1) => .ret (([], some (D.convertError err)), w1)
    | .ret ((v, none), w1) => .ret ((listLoop D v, w1))

/-- The function `NewProjectRepository`: the repository as a Repository port. -/
def NewProjectRepository {σ : Type} (D : Deps) (mapper : ProjectMapper σ) :
    repository.Project σ :=
  { Save := project.Save { mapper := mapper } D
    List := project.List { mapper := mapper } D }

/-- A factory accepts the string that the accessor reads from a non-nil value. -/
def accepts {V : Type} (new : String → Except Error V) (acc : V → String) :
    Option V → Bool
  | none => false
  | some v =>
    match new (acc v) with
    | .ok _ => true
    | .error _ => false

/-- A project built from valid value types: every value-typed field is set and holds a
string that its factory accepts. -/
def validValues (D : Deps) (p : Project) : Prop :=
  accepts D.NewAccount Account.Account p.Owner = true ∧
  accepts D.NewProjName ProjName.ProjName p.Name = true ∧
  accepts D.NewResourceDesc ResourceDesc.ResourceDesc p.Desc = true ∧
  accepts D.NewProjType ProjType.ProjType p.Type_ = true ∧
  accepts D.NewConverId CoverId.CoverId p.CoverId = true ∧
  accepts D.NewRepoType RepoType.RepoType p.RepoType = true ∧
  accepts D.NewProtocolName ProtocolName.ProtocolName p.Protocol = true ∧
  accepts D.NewTrainingPlatform TrainingPlatform.TrainingPlatform p.Training = true

instance (D : Deps) (p : Project) : Decidable (validValues D p) := by
  unfold validValues; infer_instance

/-- Each value type constructed from a string reads back as that string. -/
def readsBack (D : Deps) : Prop :=
  (∀ s v, D.NewAccount s = .ok v → v.Account = s) ∧
  (∀ s v, D.NewProjName s = .ok v → v.ProjName = s) ∧
  (∀ s v, D.NewResourceDesc s = .ok v → v.ResourceDesc = s) ∧
  (∀ s v, D.NewProjType s = .ok v → v.ProjType = s) ∧
  (∀ s v, D.NewConverId s = .ok v → v.CoverId = s) ∧
  (∀ s v, D.NewRepoType s = .ok v → v.RepoType = s) ∧
  (∀ s v, D.NewProtocolName s = .ok v → v.ProtocolName = s) ∧
  (∀ s v, D.NewTrainingPlatform s = .ok v → v.TrainingPlatform = s)

/-- The error of a rejected construction, as a list of at most one element. -/
def rejection {V : Type} : Except Error V → List Error
  | .ok _ => []
  | .error e => [e]

/-- The rejections of the value-type factories on the strings stored in `d`, in the order
in which `toProject` calls the factories. -/
def rejections (D : Deps) (d : ProjectDO) : List Error :=
  rejection (D.NewAccount d.Owner) ++ rejection (D.NewProjName d.Name) ++
    rejection (D.NewResourceDesc d.Desc) ++ rejection (D.NewProjType d.Type_) ++
    rejection (D.NewConverId d.CoverId) ++ rejection (D.NewRepoType d.RepoType) ++
    rejection (D.NewProtocolName d.Protocol) ++ rejection (D.NewTrainingPlatform d.Training)

end repositories

/-! ## Recording the calls made on the ports -/

namespace trace

open domain

/-- The methods of the ports. -/
inductive Call where
  | ProviderNew
  | RepoSave
  | RepoList
  | ActivitySave
  | MapperInsert
  | MapperList
  deriving DecidableEq, Repr

/-- A port method that appends `c` to a log each time it is invoked and returns. -/
def logged {σ β : Type} (c : Call) (f : σ → Outcome (β × σ)) :
    σ × List Call → Outcome (β × (σ × List Call))
  | (w, log) =>
    match f w with
    | .nilDeref => .nilDeref
    | .ret (b, w1) => .ret (b, (w1, log ++ [c]))

/-- The Repo Provider with its calls recorded. -/
def loggedProvider {σ : Type} (pr : platform.Repository σ) :
    platform.Repository (σ × List Call) :=
  { New := fun o => logged .ProviderNew (pr.New o) }

/-- The Repository port with its calls recorded. -/
def loggedRepo {σ : Type} (repo : repository.Project σ) :
    repository.Project (σ × List Call) :=
  { Save := fun p => logged .RepoSave (repo.Save p)
    List := fun owner o => logged .RepoList (repo.List owner o) }

/-- The activity log port with its calls recorded. -/
def loggedActivity {σ A : Type} (activity : repository.Activity σ A) :
    repository.Activity (σ × List Call) A :=
  { Save := fun a => logged .ActivitySave (activity.Save a) }

/-- The project service over ports whose calls are recorded. -/
def loggedService {σ A : Type} (s : app.projectService σ A) :
    app.projectService (σ × List Call) A :=
  { repo := loggedRepo s.repo, activity := loggedActivity s.activity }

/-- The mapper with its calls recorded. -/
def loggedMapper {σ : Type} (m : repositories.ProjectMapper σ) :
    repositories.ProjectMapper (σ × List Call) :=
  { Insert := fun d => logged .MapperInsert (m.Insert d)
    List := fun account o => logged .MapperList (m.List account o) }

end trace

/-! ## Concrete collaborators used to instantiate the theorems -/

namespace examples

open domain

/-- Factories that reject the empty string and wrap every other string. -/
def deps : repositories.Deps :=
  { NewAccount := fun s => if s = "" then .error "invalid account" else .ok ⟨s⟩
    NewProjName := fun s => if s = "" then .error "invalid name" else .ok ⟨s⟩
    NewResourceDesc := fun s => if s = "" then .error "invalid desc" else .ok ⟨s⟩
    NewProjType := fun s => if s = "" then .error "invalid type" else .ok ⟨s⟩
    NewConverId := fun s => if s = "" then .error "invalid cover id" else .ok ⟨s⟩
    NewRepoType := fun s => if s = "" then .error "invalid repo type" else .ok ⟨s⟩
    NewProtocolName := fun s => if s = "" then .error "invalid protocol" else .ok ⟨s⟩
    NewTrainingPlatform := fun s => if s = "" then .error "invalid training" else .ok ⟨s⟩
    toResourceIndex := fun d =>
      if d.Owner = "" then .error "invalid account" else .ok ⟨some ⟨d.Owner⟩, d.Id⟩
    convertError := fun e => e }

/-- A mapper over a store of documents: `Insert` appends the document under the id
`id-1`, `List` returns the documents of the account. -/
def mapper : repositories.ProjectMapper (List repositories.ProjectDO) :=
  { Insert := fun d w => .ret (("id-1", none), w ++ [{ d with Id := "id-1" }])
    List := fun account _ w => .ret ((w.filter (fun d => d.Owner == account), none), w) }

/-- A Repo Provider that creates the repository `repo-1`. -/
def provider : platform.Repository (List repositories.ProjectDO) :=
  { New := fun _ w => .ret (("repo-1", none), w) }

/-- A Repo Provider that fails. -/
def providerDown : platform.Repository (List repositories.ProjectDO) :=
  { New := fun _ w => .ret (("", some "gitlab is down"), w) }

/-- An activity log that accepts every record. -/
def activityOk : repository.Activity (List repositories.ProjectDO) (Option Account × String) :=
  { Save := fun _ w => .ret (none, w) }

/-- An activity log that fails on every record. -/
def activityDown :
    repository.Activity (List repositories.ProjectDO) (Option Account × String) :=
  { Save := fun _ w => .ret (some "activity store is down", w) }

/-- The activity record of a created resource: its owner and its id. -/
def gen (owner : Option Account) (_ : ResourceType) (rid : String) : Option Account × String :=
  (owner, rid)

/-- A complete command of creating a project. -/
def createCmd : app.ProjectCreateCmd :=
  { Owner := some ⟨"alice"⟩
    Name := some ⟨"proj"⟩
    Desc := some ⟨"a project"⟩
    Type_ := some ⟨"Gradio"⟩
    CoverId := some ⟨"1"⟩
    RepoType := some ⟨"public"⟩
    Protocol := some ⟨"MIT"⟩
    Training := some ⟨"ModelArts"⟩ }

/-- The stored form of the project of `createCmd`. -/
def storedProject : repositories.ProjectDO :=
  { Id := "id-1", Owner := "alice", Name := "proj", Desc := "a project", Type_ := "Gradio"
    CoverId := "1", Protocol := "MIT", Training := "ModelArts", RepoType := "public"
    RepoId := "repo-1", Tags := [], CreatedAt := 0, UpdatedAt := 0, Version := 0
    LikeCount := 0, ForkCount := 0, RelatedModels := [], RelatedDatasets := [] }

/-- The project that the repository returns for `createCmd`. -/
def savedProject : Project :=
  { createCmd.toProject with RepoId := "repo-1", Id := "id-1" }

/-- The DTO of `savedProject`. -/
def createdDTO : app.ProjectDTO :=
  { Id := "id-1", Owner := "alice", Name := "proj", Desc := "a project", Type_ := "Gradio"
    CoverId := "1", Protocol := "MIT", Training := "ModelArts", RepoType := "public"
    RepoId := "repo-1", Tags := [] }

/-- A training summary whose status is unset. -/
def summaryUnset : TrainingSummary :=
  { Id := "t1", Name := some ⟨"train1"⟩, Desc := none, Error := "", Status := ""
    Duration := 0, CreatedAt := 0 }

/-- A training of the example command whose job the platform reports as `status`. -/
def userTraining (status : String) : UserTraining :=
  { Id := "t1", ProjectId := "p1", TrainingConfig := (app.exampleCmd [] [] []).toTrainingConfig
    JobDetail := { Status := status, Error := "", Duration := 7, AimPath := "" }
    CreatedAt := 0 }

/-- A training service whose platform reports every status as done. -/
def service : app.trainingService :=
  { jobDone := fun _ => true }

end examples

/-! ## Validation of `TrainingCreateCmd` -/

namespace app

open domain

/-- The closure `f` returns nil on a list whose keys are all present. -/
theorem Validate_f_eq_none {err : Error} {kvs : List KeyValue} (h : keysPresent kvs) :
    Validate.f err kvs = none := by
  induction kvs with
  | nil => rfl
  | cons kv rest ih =>
    have hk : kv.Key ≠ none := h kv (List.mem_cons_self _ _)
    have hr : keysPresent rest := fun x hx => h x (List.mem_cons_of_mem _ hx)
    cases hkv : kv.Key with
    | none => exact absurd hkv hk
    | some k => simp [Validate.f, hkv, ih hr]

/-- The closure `f` returns the error on a list with a nil key. -/
theorem Validate_f_eq_some {err : Error} {kvs : List KeyValue} (h : ¬ keysPresent kvs) :
    Validate.f err kvs = some err := by
  induction kvs with
  | nil => exact absurd (fun _ hx => absurd hx (List.not_mem_nil _)) h
  | cons kv rest ih =>
    cases hkv : kv.Key with
    | none => simp [Validate.f, hkv]
    | some k =>
      have hr : ¬ keysPresent rest := by
        intro hr
        apply h
        intro x hx
        rcases List.mem_cons.mp hx with rfl | hx
        · simp [hkv]
        · exact hr x hx
      simp [Validate.f, hkv, ih hr]

/-- The loop over `Inputs` returns nil when no entry is malformed. -/
theorem Validate_inputs_eq_none {vs : List Input} (h : ∀ v ∈ vs, ¬ malformed v) :
    Validate.inputs vs = none := by
  induction vs with
  | nil => rfl
  | cons v rest ih =>
    have hv : ¬ malformed v := h v (List.mem_cons_self _ _)
    have hr : ∀ x ∈ rest, ¬ malformed x := fun x hx => h x (List.mem_cons_of_mem _ hx)
    simp only [malformed, not_or] at hv
    obtain ⟨h1, h2, h3, h4⟩ := hv
    cases hk : v.Key with
    | none => exact absurd hk h1
    | some k =>
      cases hu : v.User with
      | none => exact absurd hu h2
      | some u =>
        cases ht : v.Type_ with
        | none => exact absurd ht h3
        | some t => simp [Validate.inputs, hk, hu, ht, h4, ih hr]

/-- The loop over `Inputs` returns the input error when some entry is malformed. -/
theorem Validate_inputs_eq_some {vs : List Input} (h : ∃ v ∈ vs, malformed v) :
    Validate.inputs vs = some invalidInputErr := by
  induction vs with
  | nil => obtain ⟨v, hv, _⟩ := h; exact absurd hv (List.not_mem_nil _)
  | cons v rest ih =>
    by_cases hm : malformed v
    · have hc : (v.Key.isNone || v.User.isNone || v.Type_.isNone || v.RepoId == "") = true := by
        rcases hm with hm | hm | hm | hm <;> simp [hm]
      simp [Validate.inputs, hc]
    · have hr : ∃ x ∈ rest, malformed x := by
        obtain ⟨x, hx, hxm⟩ := h
        rcases List.mem_cons.mp hx with rfl | hx
        · exact absurd hxm hm
        · exact ⟨x, hx, hxm⟩
      have hc : (v.Key.isNone || v.User.isNone || v.Type_.isNone || v.RepoId == "") = false := by
        simp only [malformed, not_or] at hm
        obtain ⟨h1, h2, h3, h4⟩ := hm
        cases hk : v.Key with
        | none => exact absurd hk h1
        | some k =>
          cases hu : v.User with
          | none => exact absurd hu h2
          | some u =>
            cases ht : v.Type_ with
            | none => exact absurd ht h3
            | some t => simp [h4]
      simp [Validate.inputs, hc, ih hr]

/-- When a required field is missing the first or the second check returns the generic
error. -/
theorem Validate_of_not_required {cmd : TrainingCreateCmd} (h : ¬ cmd.requiredPresent) :
    cmd.Validate = some invalidCmdErr := by
  unfold TrainingCreateCmd.requiredPresent at h
  unfold TrainingCreateCmd.Validate
  cases h1 : cmd.User <;> cases h2 : cmd.ProjectName <;> cases h3 : cmd.Name <;>
    cases h4 : cmd.CodeDir <;> cases h5 : cmd.BootFile <;> cases h6 : cmd.Compute.Flavor <;>
    cases h7 : cmd.Compute.Type_ <;> cases h8 : cmd.Compute.Version <;>
    simp_all

/-- The checks after the required fields, for a command whose required fields are
present. -/
theorem Validate_of_required {cmd : TrainingCreateCmd} (h : cmd.requiredPresent) :
    cmd.Validate =
      if (Validate.f invalidCmdErr cmd.Hyperparameters).isSome then some invalidCmdErr
      else if (Validate.f invalidCmdErr cmd.Env).isSome then some invalidCmdErr
      else Validate.inputs cmd.Inputs := by
  unfold TrainingCreateCmd.requiredPresent at h
  obtain ⟨h1, h2, h3, h4, h5, h6, h7, h8, h9, h10⟩ := h
  unfold TrainingCreateCmd.Validate
  cases g1 : cmd.User <;> cases g3 : cmd.ProjectName <;> cases g5 : cmd.Name <;>
    cases g6 : cmd.CodeDir <;> cases g7 : cmd.BootFile <;> cases g8 : cmd.Compute.Flavor <;>
    cases g9 : cmd.Compute.Type_ <;> cases g10 : cmd.Compute.Version <;>
    simp_all

/-- The two errors of `Validate` have different messages. -/
theorem invalidInputErr_ne_invalidCmdErr : invalidInputErr ≠ invalidCmdErr := by decide

/-- C1. Every `TrainingCreateCmd` in which one of `User`, `ProjectName`, `Name`, `CodeDir`,
`BootFile` is nil, or `ProjectId` or `ProjectRepoId` is the empty string, or
`Compute.Flavor`, `Compute.Type` or `Compute.Version` is nil makes `Validate` return the
generic error "invalid cmd of creating training", whatever `Hyperparameters`, `Env` and
`Inputs` hold. -/
theorem Validate_generic_error_of_missing_required (cmd : TrainingCreateCmd)
    (h : cmd.User = none ∨ cmd.ProjectName = none ∨ cmd.Name = none ∨ cmd.CodeDir = none ∨
      cmd.BootFile = none ∨ cmd.ProjectId = "" ∨ cmd.ProjectRepoId = "" ∨
      cmd.Compute.Flavor = none ∨ cmd.Compute.Type_ = none ∨ cmd.Compute.Version = none) :
    cmd.Validate = some "invalid cmd of creating training" := by
  apply Validate_of_not_required
  unfold TrainingCreateCmd.requiredPresent
  rcases h with h | h | h | h | h | h | h | h | h | h <;> simp [h]

/-- Witness of C1: the example command of the specification with `BootFile` nil, with
empty lists and with a populated hyperparameter list. -/
theorem Validate_generic_error_of_missing_required_witness :
    (exampleCmdNoBootFile [] [] []).BootFile = none ∧
      (exampleCmdNoBootFile [] [] []).Validate = some "invalid cmd of creating training" :=
  ⟨rfl, Validate_generic_error_of_missing_required (exampleCmdNoBootFile [] [] [])
    (Or.inr (Or.inr (Or.inr (Or.inr (Or.inl rfl)))))⟩

/-- C2. For every `TrainingCreateCmd` whose required scalar fields and `Compute` fields are
all present: if some entry of `Hyperparameters` or of `Env` has a nil `Key`, `Validate`
fails (with the generic error); and if every entry of `Hyperparameters` and `Env` has a
non-nil `Key` and every entry of `Inputs` has non-nil `Key`, `User`, `Type` and non-empty
`RepoId`, `Validate` returns nil. Lists of any length, `Desc` and the values of the entries
are unconstrained. -/
theorem Validate_keys_and_success (cmd : TrainingCreateCmd)
    (hreq : cmd.User ≠ none ∧ cmd.ProjectId ≠ "" ∧ cmd.ProjectName ≠ none ∧
      cmd.ProjectRepoId ≠ "" ∧ cmd.Name ≠ none ∧ cmd.CodeDir ≠ none ∧ cmd.BootFile ≠ none ∧
      cmd.Compute.Flavor ≠ none ∧ cmd.Compute.Type_ ≠ none ∧ cmd.Compute.Version ≠ none) :
    ((∃ kv, (kv ∈ cmd.Hyperparameters ∨ kv ∈ cmd.Env) ∧ kv.Key = none) →
        cmd.Validate ≠ none ∧ cmd.Validate = some invalidCmdErr) ∧
    ((∀ kv ∈ cmd.Hyperparameters, kv.Key ≠ none) → (∀ kv ∈ cmd.Env, kv.Key ≠ none) →
      (∀ v ∈ cmd.Inputs, v.Key ≠ none ∧ v.User ≠ none ∧ v.Type_ ≠ none ∧ v.RepoId ≠ "") →
        cmd.Validate = none) := by
  have hv : cmd.Validate = _ := Validate_of_required hreq
  constructor
  · rintro ⟨kv, hmem, hkey⟩
    have : cmd.Validate = some invalidCmdErr := by
      by_cases hhp : keysPresent cmd.Hyperparameters
      · have henv : ¬ keysPresent cmd.Env := by
          intro henv
          rcases hmem with hmem | hmem
          · exact hhp kv hmem hkey
          · exact henv kv hmem hkey
        rw [hv, Validate_f_eq_none hhp, Validate_f_eq_some henv]; simp
      · rw [hv, Validate_f_eq_some hhp]; simp
    exact ⟨by rw [this]; simp, this⟩
  · intro hhp henv hin
    have hin2 : ∀ v ∈ cmd.Inputs, ¬ malformed v := by
      intro v hv2 hm
      obtain ⟨h1, h2, h3, h4⟩ := hin v hv2
      rcases hm with hm | hm | hm | hm
      · exact h1 hm
      · exact h2 hm
      · exact h3 hm
      · exact h4 hm
    rw [hv, Validate_f_eq_none hhp, Validate_f_eq_none henv, Validate_inputs_eq_none hin2]
    simp

/-- Witness of C2: the example command of the specification with empty lists returns nil,
and with a hyperparameter without key it fails. -/
theorem Validate_keys_and_success_witness :
    (exampleCmd [] [] []).Validate = none ∧
      (exampleCmd [⟨none, some ⟨"0.1"⟩⟩] [] []).Validate = some invalidCmdErr :=
  ⟨(Validate_keys_and_success (exampleCmd [] [] []) (by decide)).2
      (by decide) (by decide) (by decide),
    ((Validate_keys_and_success (exampleCmd [⟨none, some ⟨"0.1"⟩⟩] [] []) (by decide)).1
      ⟨⟨none, some ⟨"0.1"⟩⟩, Or.inl (List.mem_cons_self _ _), rfl⟩).2⟩

/-- C3, as stated, fails: the example command without `BootFile` and with an input without
`Key` has a malformed input, yet `Validate` returns the generic error and not the input
error. -/
theorem Validate_generic_error_before_inputs :
    (∃ v ∈ (exampleCmdNoBootFile [] [] [inputNoKey]).Inputs, malformed v) ∧
      (exampleCmdNoBootFile [] [] [inputNoKey]).Validate = some invalidCmdErr ∧
      (exampleCmdNoBootFile [] [] [inputNoKey]).Validate ≠ some invalidInputErr := by
  decide

/-- C3, amended. For every `TrainingCreateCmd` whose `Inputs` contain an entry missing
`Key`, `User`, `Type` (nil) or `RepoId` (empty string), `Validate` fails; when the command
also passes the scalar, `Compute` and `Hyperparameters`/`Env` key checks, the error is the
input error of the loop over `Inputs`, which is distinct from the generic error. -/
theorem Validate_malformed_input (cmd : TrainingCreateCmd)
    (hin : ∃ v ∈ cmd.Inputs, malformed v) :
    cmd.Validate ≠ none ∧
    (cmd.requiredPresent → keysPresent cmd.Hyperparameters → keysPresent cmd.Env →
      cmd.Validate = some invalidInputErr ∧ invalidInputErr ≠ invalidCmdErr) := by
  have key : cmd.requiredPresent → keysPresent cmd.Hyperparameters → keysPresent cmd.Env →
      cmd.Validate = some invalidInputErr := by
    intro hreq hhp henv
    rw [Validate_of_required hreq, Validate_f_eq_none hhp, Validate_f_eq_none henv,
      Validate_inputs_eq_some hin]
    simp
  refine ⟨?_, fun hreq hhp henv => ⟨key hreq hhp henv, invalidInputErr_ne_invalidCmdErr⟩⟩
  by_cases hreq : cmd.requiredPresent
  · by_cases hhp : keysPresent cmd.Hyperparameters
    · by_cases henv : keysPresent cmd.Env
      · rw [key hreq hhp henv]; simp
      · rw [Validate_of_required hreq, Validate_f_eq_none hhp, Validate_f_eq_some henv]; simp
    · rw [Validate_of_required hreq, Validate_f_eq_some hhp]; simp
  · rw [Validate_of_not_required hreq]; simp

/-- Witness of the amended C3: the example command with one input without `Key`. -/
theorem Validate_malformed_input_witness :
    (exampleCmd [] [] [inputOk, inputNoKey]).Validate = some invalidInputErr :=
  ((Validate_malformed_input (exampleCmd [] [] [inputOk, inputNoKey]) (by decide)).2
    (by decide) (by decide) (by decide)).1

/-- C10. `Validate` applies its checks in order and the first violated rule decides the
error: for a command that passes the scalar, `Compute` and key checks, `Validate` returns
the input error "invalide input" exactly when some entry of `Inputs` has a nil `Key`, `User`
or `Type` or an empty `RepoId`; for a command that violates a scalar, `Compute` or key rule
and also has such an entry, `Validate` returns the generic error and not the input error. -/
theorem Validate_first_violation_decides (cmd : TrainingCreateCmd) :
    (cmd.requiredPresent → keysPresent cmd.Hyperparameters → keysPresent cmd.Env →
      (cmd.Validate = some "invalide input" ↔
        ∃ v ∈ cmd.Inputs, v.Key = none ∨ v.User = none ∨ v.Type_ = none ∨ v.RepoId = "")) ∧
    ((¬ cmd.requiredPresent ∨ ¬ keysPresent cmd.Hyperparameters ∨ ¬ keysPresent cmd.Env) →
      (∃ v ∈ cmd.Inputs, v.Key = none ∨ v.User = none ∨ v.Type_ = none ∨ v.RepoId = "") →
        cmd.Validate = some "invalid cmd of creating training" ∧
        cmd.Validate ≠ some "invalide input") := by
  constructor
  · intro hreq hhp henv
    have hv : cmd.Validate = Validate.inputs cmd.Inputs := by
      rw [Validate_of_required hreq, Validate_f_eq_none hhp, Validate_f_eq_none henv]; simp
    constructor
    · intro h
      by_contra hno
      have hall : ∀ v ∈ cmd.Inputs, ¬ malformed v := fun v hv2 hm => hno ⟨v, hv2, hm⟩
      rw [hv, Validate_inputs_eq_none hall] at h
      exact absurd h (by simp)
    · intro h
      rw [hv]
      exact Validate_inputs_eq_some h
  · intro hbad _
    have hg : cmd.Validate = some invalidCmdErr := by
      by_cases hreq : cmd.requiredPresent
      · by_cases hhp : keysPresent cmd.Hyperparameters
        · have henv : ¬ keysPresent cmd.Env := by
            rcases hbad with hbad | hbad | hbad
            · exact absurd hreq hbad
            · exact absurd hhp hbad
            · exact hbad
          rw [Validate_of_required hreq, Validate_f_eq_none hhp, Validate_f_eq_some henv]
          simp
        · rw [Validate_of_required hreq, Validate_f_eq_some hhp]; simp
      · exact Validate_of_not_required hreq
    refine ⟨hg, ?_⟩
    rw [hg]
    decide

/-- Witness of C10: the input error for a command that passes the earlier checks, the
generic error for one that has a hyperparameter without key beside the malformed input. -/
theorem Validate_first_violation_decides_witness :
    (exampleCmd [] [] [inputNoKey]).Validate = some "invalide input" ∧
      (exampleCmd [⟨none, none⟩] [] [inputNoKey]).Validate =
        some "invalid cmd of creating training" :=
  ⟨((Validate_first_violation_decides (exampleCmd [] [] [inputNoKey])).1
      (by decide) (by decide) (by decide)).2 ⟨inputNoKey, by decide, Or.inl rfl⟩,
    ((Validate_first_violation_decides (exampleCmd [⟨none, none⟩] [] [inputNoKey])).2
      (Or.inr (Or.inl (by decide))) ⟨inputNoKey, by decide, Or.inl rfl⟩).1⟩

end app

/-! ## Status shown for a training -/

namespace app

open domain

/-- C6. For every `TrainingSummary` and every `UserTraining`: the DTO is built whenever the
accessors have non-nil receivers, and every DTO built by `toTrainingSummaryDTO`,
respectively `toTrainingDTO`, from a stored status that is the empty string has
`Status == "scheduling"` and `IsDone == false`, while from a non-empty stored status it has
that status unchanged. -/
theorem toTrainingDTO_status_default (s : trainingService) (ToDate : Int → String)
    (t : TrainingSummary) (ut : UserTraining) (link : String) :
    ((t.Name ≠ none → ∃ dto, s.toTrainingSummaryDTO ToDate t = .ret dto) ∧
      ∀ dto, s.toTrainingSummaryDTO ToDate t = .ret dto →
        (t.Status = "" → dto.Status = "scheduling" ∧ dto.IsDone = false) ∧
        (t.Status ≠ "" → dto.Status = t.Status)) ∧
    ((ut.TrainingConfig.Name ≠ none → ut.TrainingConfig.Compute.Type_ ≠ none →
        ut.TrainingConfig.Compute.Flavor ≠ none → ut.TrainingConfig.Compute.Version ≠ none →
        ∃ dto, s.toTrainingDTO ToDate ut link = .ret dto) ∧
      ∀ dto, s.toTrainingDTO ToDate ut link = .ret dto →
        (ut.JobDetail.Status = "" → dto.Status = "scheduling" ∧ dto.IsDone = false) ∧
        (ut.JobDetail.Status ≠ "" → dto.Status = ut.JobDetail.Status)) := by
  refine ⟨⟨?_, ?_⟩, ⟨?_, ?_⟩⟩
  · intro hn
    cases hname : t.Name with
    | none => exact absurd hname hn
    | some n =>
      cases hd : t.Desc <;>
        simp [trainingService.toTrainingSummaryDTO, call, Outcome.bind, hname, hd]
  · intro dto hdto
    cases hname : t.Name with
    | none => simp [trainingService.toTrainingSummaryDTO, call, Outcome.bind, hname] at hdto
    | some n =>
      cases hd : t.Desc <;>
        simp only [trainingService.toTrainingSummaryDTO, call, Outcome.bind, hname, hd,
          Outcome.ret.injEq] at hdto <;>
        subst hdto <;>
        constructor <;> intro hs <;>
        simp [hs, trainingService.isJobDone, trainingStatusScheduling]
  · intro hn h1 h2 h3
    cases hname : ut.TrainingConfig.Name with
    | none => exact absurd hname hn
    | some n =>
      cases g1 : ut.TrainingConfig.Compute.Type_ with
      | none => exact absurd g1 h1
      | some a =>
        cases g2 : ut.TrainingConfig.Compute.Flavor with
        | none => exact absurd g2 h2
        | some b =>
          cases g3 : ut.TrainingConfig.Compute.Version with
          | none => exact absurd g3 h3
          | some c =>
            cases hd : ut.TrainingConfig.Desc <;>
              simp [trainingService.toTrainingDTO, call, Outcome.bind, hname, g1, g2, g3, hd]
  · intro dto hdto
    cases hname : ut.TrainingConfig.Name <;> cases g1 : ut.TrainingConfig.Compute.Type_ <;>
      cases g2 : ut.TrainingConfig.Compute.Flavor <;>
      cases g3 : ut.TrainingConfig.Compute.Version <;>
      cases hd : ut.TrainingConfig.Desc <;>
      simp only [trainingService.toTrainingDTO, call, Outcome.bind, hname, g1, g2, g3, hd,
        Outcome.ret.injEq, reduceCtorEq] at hdto <;>
      subst hdto <;>
      constructor <;> intro hs <;>
      simp [hs, trainingService.isJobDone, trainingStatusScheduling]

/-- Witness of C6: a summary and a training with an unset status, under a platform that
reports every status as done, and a training whose status is `Running`. -/
theorem toTrainingDTO_status_default_witness :
    (∃ dto, examples.service.toTrainingSummaryDTO (fun _ => "2022-10-01") examples.summaryUnset
        = .ret dto ∧ dto.Status = "scheduling" ∧ dto.IsDone = false) ∧
    (∃ dto, examples.service.toTrainingDTO (fun _ => "2022-10-01") (examples.userTraining "") ""
        = .ret dto ∧ dto.Status = "scheduling" ∧ dto.IsDone = false) ∧
    (∃ dto, examples.service.toTrainingDTO (fun _ => "2022-10-01")
        (examples.userTraining "Running") "" = .ret dto ∧ dto.Status = "Running") := by
  have h1 := toTrainingDTO_status_default examples.service (fun _ => "2022-10-01")
    examples.summaryUnset (examples.userTraining "") ""
  have h2 := toTrainingDTO_status_default examples.service (fun _ => "2022-10-01")
    examples.summaryUnset (examples.userTraining "Running") ""
  obtain ⟨d1, hd1⟩ := h1.1.1 (by decide)
  obtain ⟨d2, hd2⟩ := h1.2.1 (by decide) (by decide) (by decide) (by decide)
  obtain ⟨d3, hd3⟩ := h2.2.1 (by decide) (by decide) (by decide) (by decide)
  exact ⟨⟨d1, hd1, (h1.1.2 d1 hd1).1 rfl⟩, ⟨d2, hd2, (h1.2.2 d2 hd2).1 rfl⟩,
    ⟨d3, hd3, (h2.2.2 d3 hd3).2 (by decide)⟩⟩

end app

/-! ## Creating a project -/

namespace app

open domain

/-- On a project whose value-typed fields are set, `toProjectDTO` returns. -/
theorem toProjectDTO_of_populated {p : Project} (h : p.populated) :
    ∃ dto, toProjectDTO p = .ret dto := by
  unfold Project.populated at h
  obtain ⟨h1, h2, h3, h4, h5, h6, h7, h8⟩ := h
  cases g1 : p.Owner <;> cases g2 : p.Name <;> cases g3 : p.Desc <;> cases g4 : p.Type_ <;>
    cases g5 : p.CoverId <;> cases g6 : p.RepoType <;> cases g7 : p.Protocol <;>
    cases g8 : p.Training <;>
    simp_all [toProjectDTO, call, Outcome.bind]

/-- Steps 1 to 3 of `Create` over arbitrary ports, when the Repo Provider and the
Repository port succeed, the saved project projects to `dto` and the activity log
returns `e`. -/
theorem Create_of_saved {σ A : Type} (s : projectService σ A)
    (gen : Option Account → ResourceType → String → A) (rtProject : ResourceType)
    (cmd : ProjectCreateCmd) (pr : platform.Repository σ) (w w1 w2 w3 : σ) (pid : String)
    (p : Project) (dto : ProjectDTO) (e : Option Error)
    (hnew : pr.New { Name := cmd.Name, RepoType := cmd.RepoType } w = .ret ((pid, none), w1))
    (hsave : s.repo.Save { cmd.toProject with RepoId := pid } w1 = .ret ((p, none), w2))
    (hdto : toProjectDTO p = .ret dto)
    (hact : s.activity.Save (gen p.Owner rtProject p.Id) w2 = .ret (e, w3)) :
    s.Create gen rtProject cmd pr w = .ret ((dto, none), w3) := by
  simp only [projectService.Create, hnew, hsave, hdto, hact]

/-- C4. For every `ProjectCreateCmd`, every state of the world and all ports: if the Repo
Provider's `New` returns an error, `Create` returns that error with the zero DTO, and the
only port call made is that `New`: neither the Repository port's `Save` nor the activity
log's `Save` is invoked, and the world is the one that `New` left. -/
theorem Create_provider_error {σ A : Type} (s : projectService σ A)
    (gen : Option Account → ResourceType → String → A) (rtProject : ResourceType)
    (cmd : ProjectCreateCmd) (pr : platform.Repository σ) (w w1 : σ) (pid : String)
    (e : Error)
    (hnew : pr.New { Name := cmd.Name, RepoType := cmd.RepoType } w =
      .ret ((pid, some e), w1)) :
    s.Create gen rtProject cmd pr w = .ret ((ProjectDTO.zero, some e), w1) ∧
    ∀ log : List trace.Call,
      (trace.loggedService s).Create gen rtProject cmd (trace.loggedProvider pr) (w, log) =
        .ret ((ProjectDTO.zero, some e), (w1, log ++ [trace.Call.ProviderNew])) := by
  constructor
  · simp only [projectService.Create, hnew]
  · intro log
    simp only [projectService.Create, trace.loggedProvider, trace.logged, hnew]

/-- Witness of C4: the complete command against a failing provider, a working repository
and a working activity log; the store stays empty and only `New` is recorded. -/
theorem Create_provider_error_witness :
    (projectService.Create
        { repo := repositories.NewProjectRepository examples.deps examples.mapper
          activity := examples.activityOk }
        examples.gen ⟨"project"⟩ examples.createCmd examples.providerDown [] =
      .ret ((ProjectDTO.zero, some "gitlab is down"), [])) ∧
    (projectService.Create
        (trace.loggedService
          { repo := repositories.NewProjectRepository examples.deps examples.mapper
            activity := examples.activityOk })
        examples.gen ⟨"project"⟩ examples.createCmd
        (trace.loggedProvider examples.providerDown) ([], []) =
      .ret ((ProjectDTO.zero, some "gitlab is down"), ([], [trace.Call.ProviderNew]))) :=
  have h := Create_provider_error
    { repo := repositories.NewProjectRepository examples.deps examples.mapper
      activity := examples.activityOk }
    examples.gen ⟨"project"⟩ examples.createCmd examples.providerDown [] [] ""
    "gitlab is down" rfl
  ⟨h.1, h.2 []⟩

end app

/-! ## The project repository -/

namespace repositories

open domain

/-- When `toProjectDO` returns, every value-typed field of the project is set. -/
theorem populated_of_toProjectDO {p : Project} {d : ProjectDO}
    (h : project.toProjectDO p = .ret d) : p.populated := by
  unfold Project.populated
  cases g1 : p.Owner <;> cases g2 : p.Name <;> cases g3 : p.Desc <;> cases g4 : p.Type_ <;>
    cases g5 : p.CoverId <;> cases g6 : p.RepoType <;> cases g7 : p.Protocol <;>
    cases g8 : p.Training <;>
    simp_all [project.toProjectDO, call, Outcome.bind]

/-- A project that `Save` returns without error has every value-typed field set. -/
theorem populated_of_Save {σ : Type} (impl : project σ) (D : Deps) (p q : Project)
    (w w1 : σ) (h : impl.Save D p w = .ret ((q, none), w1)) : q.populated := by
  unfold project.Save at h
  split at h
  · simp at h
  · cases hd : project.toProjectDO p with
    | nilDeref => simp [hd] at h
    | ret d =>
      have hp := populated_of_toProjectDO hd
      simp only [hd] at h
      split at h
      · simp at h
      · simp at h
      · simp only [Outcome.ret.injEq, Prod.mk.injEq, and_true] at h
        obtain ⟨hq, _⟩ := h
        subst hq
        exact hp

/-- C5. For every project `p` with `p.Id != ""`, whatever its other fields, the mapper and
the world: `Save(p)` fails with the error "must be a new project", returns the zero
project, leaves the world as it was and makes no call on the mapper (no `Insert`). -/
theorem Save_rejects_project_with_id {σ : Type} (impl : project σ) (D : Deps) (p : Project)
    (w : σ) (h : p.Id ≠ "") :
    impl.Save D p w = .ret ((Project.zero, some "must be a new project"), w) ∧
    ∀ log : List trace.Call,
      project.Save { mapper := trace.loggedMapper impl.mapper } D p (w, log) =
        .ret ((Project.zero, some "must be a new project"), (w, log)) := by
  constructor
  · simp [project.Save, h, mustBeNewErr]
  · intro log
    simp [project.Save, h, mustBeNewErr]

/-- Witness of C5: a complete project that already has an id, and the zero project with an
id; the store stays empty and no mapper call is recorded. -/
theorem Save_rejects_project_with_id_witness :
    (project.Save { mapper := trace.loggedMapper examples.mapper } examples.deps
        { examples.createCmd.toProject with Id := "id-1" } ([], []) =
      .ret ((Project.zero, some "must be a new project"), ([], []))) ∧
    (project.Save { mapper := examples.mapper } examples.deps
        { Project.zero with Id := "x" } [] =
      .ret ((Project.zero, some "must be a new project"), [])) :=
  ⟨(Save_rejects_project_with_id { mapper := examples.mapper } examples.deps
      { examples.createCmd.toProject with Id := "id-1" } [] (by decide)).2 [],
    (Save_rejects_project_with_id { mapper := examples.mapper } examples.deps
      { Project.zero with Id := "x" } [] (by decide)).1⟩

end repositories

/-! ## Listing projects -/

namespace app

open domain

/-- The loop of `List` on projects whose value-typed fields are set: one DTO for each
project, in order. -/
theorem listLoop_of_populated (v : List Project) (h : ∀ p ∈ v, p.populated) :
    ∃ dtos, listLoop v = .ret dtos ∧ dtos.length = v.length ∧
      ∀ (i : Nat) (h1 : i < v.length) (h2 : i < dtos.length),
        toProjectDTO v[i] = .ret dtos[i] := by
  induction v with
  | nil => exact ⟨[], rfl, rfl, fun i h1 => absurd h1 (Nat.not_lt_zero i)⟩
  | cons p rest ih =>
    obtain ⟨dto, hdto⟩ := toProjectDTO_of_populated (h p (List.mem_cons_self _ _))
    obtain ⟨dtos, hl, hlen, hi⟩ := ih (fun q hq => h q (List.mem_cons_of_mem _ hq))
    refine ⟨dto :: dtos, ?_, ?_, ?_⟩
    · simp [listLoop, hdto, hl, Outcome.bind]
    · simp [hlen]
    · intro i h1 h2
      cases i with
      | zero => simpa using hdto
      | succ j =>
        simp only [List.getElem_cons_succ]
        exact hi j (by simpa using h1) (by simpa using h2)

/-- The method `List` over an arbitrary Repository port that returns projects whose
value-typed fields are set. -/
theorem List_of_populated {σ A : Type} (s : projectService σ A) (owner : Option Account)
    (cmd : ResourceListCmd) (w w1 : σ) (v : List Project)
    (hlist : s.repo.List owner cmd.toResourceListOption w = .ret ((v, none), w1))
    (hv : ∀ p ∈ v, p.populated) :
    ∃ dtos, s.List owner cmd w = .ret ((dtos, none), w1) ∧ dtos.length = v.length ∧
      ∀ (i : Nat) (h1 : i < v.length) (h2 : i < dtos.length),
        toProjectDTO v[i] = .ret dtos[i] := by
  obtain ⟨dtos, hl, hlen, hi⟩ := listLoop_of_populated v hv
  refine ⟨dtos, ?_, hlen, hi⟩
  cases v with
  | nil =>
    have : dtos = [] := List.eq_nil_of_length_eq_zero (by simpa using hlen)
    subst this
    simp [projectService.List, hlist]
  | cons p rest =>
    simp [projectService.List, hlist, hl]

end app

namespace repositories

open domain

/-- A project that `toProject` reconstructs without error has every value-typed field
set. -/
theorem populated_of_toProject (D : Deps) (d : ProjectDO) (r q : Project)
    (h : ProjectDO.toProject D d r = (q, none)) : q.populated := by
  simp only [ProjectDO.toProject] at h
  repeat' split at h
  all_goals simp_all [Project.populated]
  subst h
  simp

/-- The loop of `project.List`, when it ends without error, has reconstructed one project
for each document, each with every value-typed field set. -/
theorem populated_of_listLoop (D : Deps) (ds : List ProjectDO) (v : List Project)
    (h : listLoop D ds = (v, none)) : ∀ q ∈ v, q.populated := by
  induction ds generalizing v with
  | nil =>
    simp only [listLoop, Prod.mk.injEq, and_true] at h
    subst h
    intro q hq
    exact absurd hq (List.not_mem_nil _)
  | cons d rest ih =>
    cases hd : ProjectDO.toProject D d Project.zero with
    | mk r e =>
      cases e with
      | some e => simp [listLoop, hd] at h
      | none =>
        cases hr : listLoop D rest with
        | mk rs e2 =>
          simp only [listLoop, hd, hr, Prod.mk.injEq] at h
          obtain ⟨hv, he⟩ := h
          subst hv he
          intro q hq
          rcases List.mem_cons.mp hq with rfl | hq
          · exact populated_of_toProject D d Project.zero _ hd
          · exact ih rs hr q hq

/-- The projects that `project.List` returns without error have every value-typed field
set. -/
theorem populated_of_List {σ : Type} (impl : project σ) (D : Deps) (owner : Option Account)
    (option : repository.ResourceListOption) (w w1 : σ) (v : List Project)
    (h : impl.List D owner option w = .ret ((v, none), w1)) : ∀ q ∈ v, q.populated := by
  unfold project.List at h
  cases ho : call owner Account.Account with
  | nilDeref => simp [ho] at h
  | ret account =>
    simp only [ho] at h
    split at h
    · simp at h
    · simp at h
    · rename_i ds w2 _
      simp only [Outcome.ret.injEq, Prod.mk.injEq] at h
      exact populated_of_listLoop D ds v h.1

/-- What `accepts` says: the field is set and the factory constructs a value from its
string. -/
theorem accepts_elim {V : Type} {new : String → Except Error V} {acc : V → String}
    {x : Option V} (h : accepts new acc x = true) :
    ∃ v v1, x = some v ∧ new (acc v) = .ok v1 := by
  cases x with
  | none => simp [accepts] at h
  | some v =>
    cases hn : new (acc v) with
    | error e => simp [accepts, hn] at h
    | ok v1 => exact ⟨v, v1, rfl, hn⟩

end repositories

/-! ## The project service over the project repository -/

namespace app

open domain

/-- C7. For every `ProjectCreateCmd` for which the Repo Provider's `New` and the
Repository's `Save` both succeed, `Save` returning the project `p`: `p` projects to a DTO,
and for every activity log and whatever its `Save` returns, nil or an error, `Create`
returns a nil error and that same DTO. The Repository port is the repository of
`infrastructure/repositories` over an arbitrary mapper; `Create_of_saved` is the statement
over an arbitrary port. -/
theorem Create_ignores_activity_error {σ A : Type} (D : repositories.Deps)
    (mapper : repositories.ProjectMapper σ)
    (gen : Option Account → ResourceType → String → A) (rtProject : ResourceType)
    (cmd : ProjectCreateCmd) (pr : platform.Repository σ) (w w1 w2 : σ) (pid : String)
    (p : Project)
    (hnew : pr.New { Name := cmd.Name, RepoType := cmd.RepoType } w = .ret ((pid, none), w1))
    (hsave : (repositories.NewProjectRepository D mapper).Save
      { cmd.toProject with RepoId := pid } w1 = .ret ((p, none), w2)) :
    ∃ dto, toProjectDTO p = .ret dto ∧
      ∀ (activity : repository.Activity σ A) (e : Option Error) (w3 : σ),
        activity.Save (gen p.Owner rtProject p.Id) w2 = .ret (e, w3) →
        projectService.Create
          { repo := repositories.NewProjectRepository D mapper, activity := activity }
          gen rtProject cmd pr w = .ret ((dto, none), w3) := by
  have hp : p.populated :=
    repositories.populated_of_Save { mapper := mapper } D
      { cmd.toProject with RepoId := pid } p w1 w2 hsave
  obtain ⟨dto, hdto⟩ := toProjectDTO_of_populated hp
  refine ⟨dto, hdto, ?_⟩
  intro activity e w3 hact
  exact Create_of_saved
    { repo := repositories.NewProjectRepository D mapper, activity := activity }
    gen rtProject cmd pr w w1 w2 w3 pid p dto e hnew hsave hdto hact

/-- Witness of C7: the complete command over the example mapper; `Create` returns the same
DTO and a nil error under the activity log that succeeds and under the one that fails. -/
theorem Create_ignores_activity_error_witness :
    ∃ dto,
      projectService.Create
        { repo := repositories.NewProjectRepository examples.deps examples.mapper
          activity := examples.activityOk }
        examples.gen ⟨"project"⟩ examples.createCmd examples.provider [] =
          .ret ((dto, none), [examples.storedProject]) ∧
      projectService.Create
        { repo := repositories.NewProjectRepository examples.deps examples.mapper
          activity := examples.activityDown }
        examples.gen ⟨"project"⟩ examples.createCmd examples.provider [] =
          .ret ((dto, none), [examples.storedProject]) ∧
      dto.Id = "id-1" ∧ dto.RepoId = "repo-1" ∧ dto.Owner = "alice" := by
  obtain ⟨dto, hdto, h⟩ := Create_ignores_activity_error examples.deps examples.mapper
    examples.gen ⟨"project"⟩ examples.createCmd examples.provider [] []
    [examples.storedProject] "repo-1" examples.savedProject rfl (by decide)
  have h2 : toProjectDTO examples.savedProject = .ret examples.createdDTO := by decide
  have hd : dto = examples.createdDTO := (Outcome.ret.inj (hdto.symm.trans h2))
  refine ⟨dto, h examples.activityOk none _ rfl, h examples.activityDown _ _ rfl, ?_⟩
  subst hd
  exact ⟨rfl, rfl, rfl⟩

/-- C8. For every owner and `ResourceListCmd`: when the Repository's `List` succeeds with
the projects `v`, `projectService.List` returns a nil error and exactly as many DTOs as
there are projects, the i-th DTO being the `toProjectDTO` projection of the i-th project;
for zero projects the result is empty. The Repository port is the repository of
`infrastructure/repositories` over an arbitrary mapper; `List_of_populated` is the
statement over an arbitrary port. -/
theorem List_returns_projections {σ A : Type} (D : repositories.Deps)
    (mapper : repositories.ProjectMapper σ) (activity : repository.Activity σ A)
    (owner : Option Account) (cmd : ResourceListCmd) (w w1 : σ) (v : List Project)
    (hlist : (repositories.NewProjectRepository D mapper).List owner
      cmd.toResourceListOption w = .ret ((v, none), w1)) :
    ∃ dtos,
      projectService.List
        { repo := repositories.NewProjectRepository D mapper, activity := activity }
        owner cmd w = .ret ((dtos, none), w1) ∧
      dtos.length = v.length ∧ (v = [] → dtos = []) ∧
      ∀ (i : Nat) (h1 : i < v.length) (h2 : i < dtos.length),
        toProjectDTO v[i] = .ret dtos[i] := by
  have hv : ∀ q ∈ v, q.populated :=
    repositories.populated_of_List { mapper := mapper } D owner _ w w1 v hlist
  obtain ⟨dtos, hl, hlen, hi⟩ := List_of_populated
    { repo := repositories.NewProjectRepository D mapper, activity := activity }
    owner cmd w w1 v hlist hv
  refine ⟨dtos, hl, hlen, ?_, hi⟩
  intro hnil
  subst hnil
  exact List.eq_nil_of_length_eq_zero hlen

/-- Witness of C8: over the example mapper holding one project of `alice`, the list of
`alice` is the DTO of that project and the list of `bob` is empty, both without error. -/
theorem List_returns_projections_witness :
    projectService.List
        { repo := repositories.NewProjectRepository examples.deps examples.mapper
          activity := examples.activityOk }
        (some ⟨"alice"⟩) ⟨"", none⟩ [examples.storedProject] =
      .ret (([examples.createdDTO], none), [examples.storedProject]) ∧
    projectService.List
        { repo := repositories.NewProjectRepository examples.deps examples.mapper
          activity := examples.activityOk }
        (some ⟨"bob"⟩) ⟨"", none⟩ [examples.storedProject] =
      .ret (([], none), [examples.storedProject]) := by
  obtain ⟨dtos, hl, hlen, _, hi⟩ := List_returns_projections examples.deps examples.mapper
    examples.activityOk (some ⟨"alice"⟩) ⟨"", none⟩ [examples.storedProject]
    [examples.storedProject] [examples.savedProject] (by decide)
  obtain ⟨dtos0, hl0, _, hnil0, _⟩ := List_returns_projections examples.deps examples.mapper
    examples.activityOk (some ⟨"bob"⟩) ⟨"", none⟩ [examples.storedProject]
    [examples.storedProject] [] (by decide)
  have h0 : dtos0 = [] := hnil0 rfl
  subst h0
  refine ⟨?_, hl0⟩
  match dtos, hlen, hi with
  | [d], _, hi =>
    have h2 : toProjectDTO examples.savedProject = .ret examples.createdDTO := by decide
    have h3 := hi 0 (by simp) (by simp)
    have hd : d = examples.createdDTO := Outcome.ret.inj (h3.symm.trans h2)
    subst hd
    exact hl

end app

/-! ## Round trip of the mapping layer -/

namespace repositories

open domain

/-- C9. Round trip of the mapping layer, given that each value type constructed from a
string reads back as that string. For every project `p` built from valid value types (each
value-typed field set to a value whose string its factory accepts) and every destination
`r`: `toProjectDO` returns a document `d`, `toProject` reconstructs from `d` a project `q`
without error, and `Owner`, `Name`, `Desc`, `Type`, `CoverId`, `RepoType`, `Protocol` and
`Training` of `q` are set and read back to the same strings as those of `p`. And for every
document on which some value-type factory rejects its stored string, `toProject` returns
an error, the one of the first rejecting factory in the order of the calls. -/
theorem toProject_toProjectDO_round_trip (D : Deps) (hrb : readsBack D) :
    (∀ p r : Project, validValues D p →
      ∃ d q, project.toProjectDO p = .ret d ∧ ProjectDO.toProject D d r = (q, none) ∧
        q.populated ∧
        q.Owner.map Account.Account = p.Owner.map Account.Account ∧
        q.Name.map ProjName.ProjName = p.Name.map ProjName.ProjName ∧
        q.Desc.map ResourceDesc.ResourceDesc = p.Desc.map ResourceDesc.ResourceDesc ∧
        q.Type_.map ProjType.ProjType = p.Type_.map ProjType.ProjType ∧
        q.CoverId.map CoverId.CoverId = p.CoverId.map CoverId.CoverId ∧
        q.RepoType.map RepoType.RepoType = p.RepoType.map RepoType.RepoType ∧
        q.Protocol.map ProtocolName.ProtocolName = p.Protocol.map ProtocolName.ProtocolName ∧
        q.Training.map TrainingPlatform.TrainingPlatform =
          p.Training.map TrainingPlatform.TrainingPlatform) ∧
    (∀ (d : ProjectDO) (r : Project), rejections D d ≠ [] →
      ∃ e, (ProjectDO.toProject D d r).2 = some e ∧ (rejections D d).head? = some e) := by
  obtain ⟨r1, r2, r3, r4, r5, r6, r7, r8⟩ := hrb
  constructor
  · intro p r hp
    obtain ⟨a1, a2, a3, a4, a5, a6, a7, a8⟩ := hp
    obtain ⟨v1, u1, e1, n1⟩ := accepts_elim a1
    obtain ⟨v2, u2, e2, n2⟩ := accepts_elim a2
    obtain ⟨v3, u3, e3, n3⟩ := accepts_elim a3
    obtain ⟨v4, u4, e4, n4⟩ := accepts_elim a4
    obtain ⟨v5, u5, e5, n5⟩ := accepts_elim a5
    obtain ⟨v6, u6, e6, n6⟩ := accepts_elim a6
    obtain ⟨v7, u7, e7, n7⟩ := accepts_elim a7
    obtain ⟨v8, u8, e8, n8⟩ := accepts_elim a8
    have s1 := r1 _ _ n1
    have s2 := r2 _ _ n2
    have s3 := r3 _ _ n3
    have s4 := r4 _ _ n4
    have s5 := r5 _ _ n5
    have s6 := r6 _ _ n6
    have s7 := r7 _ _ n7
    have s8 := r8 _ _ n8
    have hd : ∃ d, project.toProjectDO p = .ret d ∧ d.Owner = v1.Account ∧
        d.Name = v2.ProjName ∧ d.Desc = v3.ResourceDesc ∧ d.Type_ = v4.ProjType ∧
        d.CoverId = v5.CoverId ∧ d.RepoType = v6.RepoType ∧ d.Protocol = v7.ProtocolName ∧
        d.Training = v8.TrainingPlatform ∧ d.RelatedModels = [] ∧ d.RelatedDatasets = [] := by
      simp [project.toProjectDO, call, Outcome.bind, e1, e2, e3, e4, e5, e6, e7, e8]
    obtain ⟨d, hd, o1, o2, o3, o4, o5, o6, o7, o8, m1, m2⟩ := hd
    refine ⟨d, (ProjectDO.toProject D d r).1, hd, ?_, ?_⟩
    · refine Prod.ext rfl ?_
      simp [ProjectDO.toProject, o1, o2, o3, o4, o5, o6, o7, o8, m1, m2, n1, n2, n3, n4, n5,
        n6, n7, n8, convertToResourceIndex]
    · simp [ProjectDO.toProject, Project.populated, o1, o2, o3, o4, o5, o6, o7, o8, m1, m2,
        n1, n2, n3, n4, n5, n6, n7, n8, convertToResourceIndex, e1, e2, e3, e4, e5, e6, e7,
        e8, s1, s2, s3, s4, s5, s6, s7, s8]
  · intro d r hrej
    cases g1 : D.NewAccount d.Owner with
    | error e =>
      exact ⟨e, by simp [ProjectDO.toProject, g1],
        by simp [rejections, rejection, g1]⟩
    | ok x1 =>
      cases g2 : D.NewProjName d.Name with
      | error e =>
        exact ⟨e, by simp [ProjectDO.toProject, g1, g2],
          by simp [rejections, rejection, g1, g2]⟩
      | ok x2 =>
        cases g3 : D.NewResourceDesc d.Desc with
        | error e =>
          exact ⟨e, by simp [ProjectDO.toProject, g1, g2, g3],
            by simp [rejections, rejection, g1, g2, g3]⟩
        | ok x3 =>
          cases g4 : D.NewProjType d.Type_ with
          | error e =>
            exact ⟨e, by simp [ProjectDO.toProject, g1, g2, g3, g4],
              by simp [rejections, rejection, g1, g2, g3, g4]⟩
          | ok x4 =>
            cases g5 : D.NewConverId d.CoverId with
            | error e =>
              exact ⟨e, by simp [ProjectDO.toProject, g1, g2, g3, g4, g5],
                by simp [rejections, rejection, g1, g2, g3, g4, g5]⟩
            | ok x5 =>
              cases g6 : D.NewRepoType d.RepoType with
              | error e =>
                exact ⟨e, by simp [ProjectDO.toProject, g1, g2, g3, g4, g5, g6],
                  by simp [rejections, rejection, g1, g2, g3, g4, g5, g6]⟩
              | ok x6 =>
                cases g7 : D.NewProtocolName d.Protocol with
                | error e =>
                  exact ⟨e, by simp [ProjectDO.toProject, g1, g2, g3, g4, g5, g6, g7],
                    by simp [rejections, rejection, g1, g2, g3, g4, g5, g6, g7]⟩
                | ok x7 =>
                  cases g8 : D.NewTrainingPlatform d.Training with
                  | error e =>
                    exact ⟨e, by simp [ProjectDO.toProject, g1, g2, g3, g4, g5, g6, g7, g8],
                      by simp [rejections, rejection, g1, g2, g3, g4, g5, g6, g7, g8]⟩
                  | ok x8 =>
                    simp [rejections, rejection, g1, g2, g3, g4, g5, g6, g7, g8] at hrej

/-- The example factories read back the string they were given. -/
theorem readsBack_examples_deps : readsBack examples.deps := by
  unfold readsBack examples.deps
  refine ⟨?_, ?_, ?_, ?_, ?_, ?_, ?_, ?_⟩ <;>
    · intro s v h
      by_cases hs : s = ""
      · simp [hs] at h
      · simp only [hs, if_false, Except.ok.injEq] at h
        rw [← h]

/-- Witness of C9: under the example factories the saved example project survives the
round trip, and a stored document with an empty name is rejected with the error of the
name factory. -/
theorem toProject_toProjectDO_round_trip_witness :
    (∃ d q, project.toProjectDO examples.savedProject = .ret d ∧
      ProjectDO.toProject examples.deps d Project.zero = (q, none) ∧
      q.Owner.map Account.Account = some "alice" ∧ q.Name.map ProjName.ProjName = some "proj") ∧
    (ProjectDO.toProject examples.deps { examples.storedProject with Name := "" }
      Project.zero).2 = some "invalid name" := by
  have h := toProject_toProjectDO_round_trip examples.deps readsBack_examples_deps
  obtain ⟨d, q, h1, h2, _, h3, h4, _⟩ := h.1 examples.savedProject Project.zero (by decide)
  obtain ⟨e, he, hhead⟩ := h.2 { examples.storedProject with Name := "" } Project.zero
    (by decide)
  refine ⟨⟨d, q, h1, h2, h3, h4⟩, ?_⟩
  rw [he]
  have : (rejections examples.deps { examples.storedProject with Name := "" }).head? =
      some "invalid name" := by decide
  rw [this] at hhead
  exact hhead.symm

end repositories
